import Mathlib

/-!
Verification development for the `argio` attribute transformer.

The repository contains two implementations of the transformer:
`src/argio-macro/src/lib.rs` (function `argio`, helper `VarRewriter`,
attribute parser `ArgioAttr::parse`) and an older copy in `src/src/lib.rs`.
This file gives a shallow embedding of both:

* the attribute-argument parser (`ArgioAttr::parse`) over a small syn-like
  token model;
* the multicase template decomposer, i.e. the exact semantics of the Rust
  regex `^([^{]*)\{([^:}]+)(:[^}]+)?\}(.*)$` (in the Rust `regex` crate `.`
  does not match a newline and `$` anchors at the end of the haystack);
* the identifier-substitution visitor `VarRewriter` over a fragment of
  `syn::Expr` (syn's default `visit_mut` traversal with only
  `visit_ident_mut` overridden visits every identifier node, including
  path segments, named field members and method names);
* both code generators, producing a structured description (`GenOut`) of
  the emitted replacement function, mirroring the two `quote!` templates;
* a runtime-trace semantics (`runGen`) for the generated function, with the
  external collaborators (the input facility, the display/format facility,
  the output wrapper and the original function body) supplied as an
  environment `RunEnv`.

Rust `String` values are modelled as `List Char`; machine spans as `Nat`;
the external Rust expression parser `syn::parse_str::<syn::Expr>` is an
opaque collaborator and is passed in as a parameter `P`.
-/

/-- A path such as `argio::proconio::input`, modelled as its segment names
(the leading-colon distinction of `syn::RPath` is dropped; no claim depends
on it). -/
abbrev RPath := List String

/-- The raw parameter list of the original function.  The transformer hands
it to the input facility verbatim (it is not required to be valid Rust), so
it is kept as raw text. -/
abbrev Decls := String

/-- The original function body, handed through verbatim. -/
abbrev Body := String

/-- A fragment of `syn::Type` sufficient for the return-type comparison the
transformer performs: `Ty.unit` is the empty tuple type `()`. -/
inductive Ty where
  | unit
  | name (s : String)
  | tuple2 (a b : Ty)
deriving DecidableEq, Repr

/-- A fragment of `syn::Expr` sufficient for multicase template expressions.
Calls and method calls are restricted to one argument; this loses no
generality for the claims under study.  `lit` is a literal token,
`fieldNamed`/`fieldUnnamed` are `ExprField` with a named respectively
numeric member, `methodCall` is `ExprMethodCall`. -/
inductive SExpr where
  | path (segs : List String)
  | lit (tok : String)
  | paren (e : SExpr)
  | unary (op : String) (e : SExpr)
  | binary (op : String) (l r : SExpr)
  | call (f : SExpr) (arg : SExpr)
  | methodCall (recv : SExpr) (m : String) (arg : SExpr)
  | fieldNamed (base : SExpr) (nm : String)
  | fieldUnnamed (base : SExpr) (idx : Nat)
deriving DecidableEq, Repr

/-- `VarRewriter.visit_ident_mut`: rename the identifier when it is exactly
`i`. -/
def renameIdent (cid : String) (s : String) : String :=
  if s = "i" then cid else s

/-- The effect of `VarRewriter { case_id: cid }.visit_expr_mut` on an
expression: syn's default `VisitMut` traversal with only `visit_ident_mut`
overridden reaches every `Ident` node — path segments, the named member of a
field access (via `visit_member_mut`) and the method name of a method call —
and renames each one that is exactly `i`.  Operator tokens, literals and
numeric members contain no `Ident` and are untouched. -/
def substIdent (cid : String) : SExpr → SExpr
  | .path segs => .path (segs.map (renameIdent cid))
  | .lit tok => .lit tok
  | .paren e => .paren (substIdent cid e)
  | .unary op e => .unary op (substIdent cid e)
  | .binary op l r => .binary op (substIdent cid l) (substIdent cid r)
  | .call f a => .call (substIdent cid f) (substIdent cid a)
  | .methodCall r m a => .methodCall (substIdent cid r) (renameIdent cid m) (substIdent cid a)
  | .fieldNamed b nm => .fieldNamed (substIdent cid b) (renameIdent cid nm)
  | .fieldUnnamed b idx => .fieldUnnamed (substIdent cid b) idx

/-- All identifier nodes of an expression, in syn's traversal order. -/
def identsOf : SExpr → List String
  | .path segs => segs
  | .lit _ => []
  | .paren e => identsOf e
  | .unary _ e => identsOf e
  | .binary _ l r => identsOf l ++ identsOf r
  | .call f a => identsOf f ++ identsOf a
  | .methodCall r m a => identsOf r ++ [m] ++ identsOf a
  | .fieldNamed b nm => identsOf b ++ [nm]
  | .fieldUnnamed b _ => identsOf b

/-- Split a string at its first `{`: `splitAtBrace s = some (p, r)` when
`s = p ++ '{' :: r` and `p` contains no `{`; `none` when `s` has no `{`.
This is the deterministic semantics of the regex fragment `^([^{]*)\{`. -/
def splitAtBrace : List Char → Option (List Char × List Char)
  | [] => none
  | c :: cs =>
    if c = '{' then some ([], cs)
    else (splitAtBrace cs).map (fun pr => (c :: pr.1, pr.2))

/-- A character allowed in the placeholder expression: the class `[^:}]`. -/
def exprChar (c : Char) : Bool := c != ':' && c != '}'

/-- A character allowed in the format spec: the class `[^}]`. -/
def specChar (c : Char) : Bool := c != '}'

/-- The captures of the Rust regex `^([^{]*)\{([^:}]+)(:[^}]+)?\}(.*)$` on a
template string: prefix, placeholder expression text, optional format spec
(without its leading colon) and suffix.  `[^…]` classes match a newline but
`.` does not, and `$` anchors at the end of the haystack, so the suffix must
contain no newline. -/
def decompose (s : List Char) : Option (List Char × List Char × Option (List Char) × List Char) :=
  match splitAtBrace s with
  | none => none
  | some (p, r) =>
    let e := r.takeWhile exprChar
    let r1 := r.dropWhile exprChar
    if e.isEmpty then none
    else
      match r1 with
      | ':' :: r2 =>
        let sp := r2.takeWhile specChar
        let r3 := r2.dropWhile specChar
        if sp.isEmpty then none
        else
          match r3 with
          | '}' :: t => if t.contains '\n' then none else some (p, e, some sp, t)
          | _ => none
      | '}' :: t => if t.contains '\n' then none else some (p, e, none, t)
      | _ => none

/-- The text of capture group 3 (`(:[^}]+)?`), colon included, or empty. -/
def specChunk : Option (List Char) → List Char
  | some sp => ':' :: sp
  | none => []

/-- The reassembled print-format string
`format!("{}{{{}}}{}", &caps[1], caps.get(3)…, &caps[4])`:
prefix, `{`, the optional spec (with its colon), `}`, suffix. -/
def reassembleFmt (p : List Char) (osp : Option (List Char)) (t : List Char) : List Char :=
  p ++ '{' :: (specChunk osp ++ '}' :: t)

/-- The shape accepted by the template regex, stated abstractly: the string
is `prefix{expr}suffix` or `prefix{expr:spec}suffix` where the prefix has no
`{`, the expression part is nonempty and has no `:` or `}`, the spec part is
nonempty and has no `}`, and the suffix has no newline. -/
def regexMatches (s : List Char) : Prop :=
  ∃ p e osp t,
    s = p ++ '{' :: (e ++ specChunk osp ++ '}' :: t) ∧
    '{' ∉ p ∧
    e ≠ [] ∧ (∀ c ∈ e, c ≠ ':' ∧ c ≠ '}') ∧
    (∀ sp, osp = some sp → sp ≠ [] ∧ ∀ c ∈ sp, c ≠ '}') ∧
    '\n' ∉ t

/-- A compile-time diagnostic: a source span (modelled as a number) and a
message. -/
structure Diag where
  span : Nat
  msg : String
deriving DecidableEq, Repr

/-- One token of the attribute argument stream, with its span. -/
inductive Tok where
  | ident (nm : String) (span : Nat)
  | litS (val : List Char) (span : Nat)
  | eqTok (span : Nat)
  | comma (span : Nat)
  | pathSep (span : Nat)
  | other (span : Nat)
deriving DecidableEq, Repr

/-- The span of a token. -/
def Tok.span : Tok → Nat
  | .ident _ s => s
  | .litS _ s => s
  | .eqTok s => s
  | .comma s => s
  | .pathSep s => s
  | .other s => s

/-- `ParseStream::span()`: the span of the front of the stream (0 at the
end of the stream). -/
def streamSpan : List Tok → Nat
  | [] => 0
  | t :: _ => t.span

/-- The parsed attribute configuration (`struct ArgioAttr`).  The multicase
field keeps the template text and the span recorded for diagnostics. -/
structure ArgioAttr where
  multicase : Option (List Char × Nat)
  input : Option RPath
  output : Option RPath
deriving DecidableEq, Repr

/-- The all-absent configuration the parser starts from. -/
def emptyAttr : ArgioAttr := ⟨none, none, none⟩

/-- The default multicase template `"Case #{i+1}: "`. -/
def defaultTemplate : List Char := "Case #{i+1}: ".data

/-- `input.parse::<syn::RPath>()` after its first segment: consume
`:: ident` pairs greedily; a `::` not followed by an identifier is a syn
parse error. -/
def parsePathTail (acc : List String) : List Tok → Except Diag (List String × List Tok)
  | .pathSep _ :: rest =>
    match rest with
    | .ident s _ :: rest2 => parsePathTail (acc ++ [s]) rest2
    | r => .error ⟨streamSpan r, "expected identifier"⟩
  | toks => .ok (acc, toks)

/-- `input.parse::<syn::RPath>()`: an identifier (optionally preceded by a
leading `::`) followed by `:: ident` segments. -/
def parsePath : List Tok → Except Diag (List String × List Tok)
  | .ident s _ :: rest => parsePathTail [s] rest
  | .pathSep _ :: .ident s _ :: rest => parsePathTail [s] rest
  | toks => .error ⟨streamSpan toks, "expected identifier"⟩

/-- The loop of `ArgioAttr::parse` (`impl syn::parse::Parse for ArgioAttr`).
One fuel unit per iteration; every iteration consumes at least one token, so
`toks.length + 1` fuel always suffices and the fuel-0 branch is unreachable
(it is given the same value as a loop break).  `first` is the flag that
suppresses the comma requirement on the first iteration.  Messages of
errors raised by syn itself (`Token![=]`, `syn::LitStr`, `syn::RPath`) are
modelled by their conventional syn texts. -/
def parseAttrStep : Nat → Bool → ArgioAttr → List Tok → Except Diag (ArgioAttr × List Tok)
  | 0, _, ret, toks => .ok (ret, toks)
  | Nat.succ fuel, first, ret, toks =>
    let afterComma : Option (List Tok) :=
      if first then some toks
      else
        match toks with
        | .comma _ :: rest => some rest
        | _ => none
    match afterComma with
    | none => .ok (ret, toks)
    | some t1 =>
      match t1 with
      | .ident nm sp :: t2 =>
        if nm = "multicase" then
          match t2 with
          | .eqTok _ :: t3 =>
            match t3 with
            | .litS v vsp :: t4 =>
              parseAttrStep fuel false { ret with multicase := some (v, vsp) } t4
            | t3r => .error ⟨streamSpan t3r, "expected string literal"⟩
          | _ => parseAttrStep fuel false { ret with multicase := some (defaultTemplate, streamSpan t2) } t2
        else if nm = "output" then
          match t2 with
          | .eqTok _ :: t3 =>
            match parsePath t3 with
            | .error d => .error d
            | .ok (p, t4) => parseAttrStep fuel false { ret with output := some p } t4
          | t2r => .error ⟨streamSpan t2r, "expected `=`"⟩
        else if nm = "input" then
          match t2 with
          | .eqTok _ :: t3 =>
            match parsePath t3 with
            | .error d => .error d
            | .ok (p, t4) => parseAttrStep fuel false { ret with input := some p } t4
          | t2r => .error ⟨streamSpan t2r, "expected `=`"⟩
        else .error ⟨sp, "argio: invalid attr: " ++ nm⟩
      | _ => .ok (ret, t1)

/-- `ArgioAttr::parse` run on a token stream: the loop with enough fuel. -/
def runAttrParse (toks : List Tok) : Except Diag (ArgioAttr × List Tok) :=
  parseAttrStep (toks.length + 1) true emptyAttr toks

/-- The parser as invoked by `parse_macro_input!(attr as ArgioAttr)`: the
whole stream must be consumed, leftover tokens are a syn-level error. -/
def parseArgioAttr (toks : List Tok) : Except Diag ArgioAttr :=
  match runAttrParse toks with
  | .error d => .error d
  | .ok (a, []) => .ok a
  | .ok (_, rest) => .error ⟨streamSpan rest, "unexpected token"⟩

/-- The per-case header print of the generated multicase loop: either
`print!(<literal>)` with no argument, or `print!(<fmt>, <arg>)`. -/
inductive Header where
  | literal (s : List Char)
  | fmt (fmtStr : List Char) (arg : SExpr)
deriving DecidableEq, Repr

/-- The result print of the generated function: `println!("{}", ret)` or
`println!("{}", W(ret))` for the configured wrapper `W`. -/
inductive PrintRes where
  | raw
  | wrapped (w : RPath)
deriving DecidableEq, Repr

/-- The body shape of the generated zero-parameter function, mirroring the
two `quote!` templates of `argio`: a single-shot shape and a multicase
shape.  Both carry the input-facility path, the verbatim original parameter
list, the closure's return type, the original body and the optional result
print (`none` exactly when the return type was the unit type). -/
inductive GenMode where
  | single (inputPath : RPath) (args : Decls) (retTy : Ty) (body : Body) (pr : Option PrintRes)
  | multi (inputPath : RPath) (header : Header) (args : Decls) (retTy : Ty) (body : Body) (pr : Option PrintRes)
deriving DecidableEq, Repr

/-- The result print component of either shape. -/
def GenMode.printRes : GenMode → Option PrintRes
  | .single _ _ _ _ pr => pr
  | .multi _ _ _ _ _ pr => pr

/-- The generated replacement function: same visibility and name as the
original, zero parameters, body as described by `GenMode`. -/
structure GenOut where
  vis : String
  name : String
  mode : GenMode
deriving DecidableEq, Repr

/-- The declared return type: an absent annotation is the unit type. -/
def retTyOf (f : Option Ty) : Ty := f.getD Ty.unit

/-- The original function as consumed by the transformer
(`syn::ItemFn` restricted to the parts the transformer reads). -/
structure FnItem where
  vis : String
  name : String
  args : Decls
  retAnn : Option Ty
  body : Body
deriving DecidableEq, Repr

/-- The default input facility of the `argio-macro` implementation. -/
def argioDefaultInput : RPath := ["argio", "proconio", "input"]

/-- The default input facility of the `src/src/lib.rs` implementation. -/
def srcDefaultInput : RPath := ["proconio", "input"]

/-- The wrapping applied before display: `#wrapper(#ret_var)` when `output`
is configured, the bare result otherwise. -/
def outWrapOf (attr : ArgioAttr) : PrintRes :=
  match attr.output with
  | some w => .wrapped w
  | none => .raw

/-- `print_code`: empty when the return type is (syntactically) the unit
type, otherwise `println!("{}", #wrapped)`. -/
def printResOf (attr : ArgioAttr) (rt : Ty) : Option PrintRes :=
  if rt = Ty.unit then none else some (outWrapOf attr)

/-- The input facility used by the `argio-macro` implementation. -/
def inputPathOf (attr : ArgioAttr) : RPath := attr.input.getD argioDefaultInput

/-- The input facility used by the `src/src/lib.rs` implementation. -/
def srcInputPathOf (attr : ArgioAttr) : RPath := attr.input.getD srcDefaultInput

/-- The multicase header construction of `src/src/lib.rs`: run the regex
(failing with `Invalid multicase format` at the template's span), reassemble
the format string, parse the placeholder expression with the external
parser `P` (failing with the parser's message plus the offending text), and
substitute the case-index variable `case_id` for `i`. -/
def mkHeaderSrc (P : List Char → Except String SExpr) (tpl : List Char) (tsp : Nat) :
    Except Diag Header :=
  match decompose tpl with
  | none => .error ⟨tsp, "Invalid multicase format"⟩
  | some (p, e, osp, t) =>
    match P e with
    | .error err => .error ⟨tsp, err ++ ": `" ++ String.mk e ++ "`"⟩
    | .ok ex => .ok (.fmt (reassembleFmt p osp t) (substIdent "case_id" ex))

/-- The multicase header construction of `argio-macro`: a template without
any `{` short-circuits to a literal `print!` with no argument; otherwise as
in `src/src/lib.rs`. -/
def mkHeaderArgio (P : List Char → Except String SExpr) (tpl : List Char) (tsp : Nat) :
    Except Diag Header :=
  if !(tpl.contains '{') then .ok (.literal tpl)
  else mkHeaderSrc P tpl tsp

/-- The `argio` transformer of `src/argio-macro/src/lib.rs`: from the parsed
attribute and function, produce the replacement function or a diagnostic. -/
def argioGen (P : List Char → Except String SExpr) (attr : ArgioAttr) (f : FnItem) :
    Except Diag GenOut :=
  let rt := retTyOf f.retAnn
  let pr := printResOf attr rt
  let ip := inputPathOf attr
  match attr.multicase with
  | some (tpl, tsp) =>
    match mkHeaderArgio P tpl tsp with
    | .error d => .error d
    | .ok hd => .ok ⟨f.vis, f.name, .multi ip hd f.args rt f.body pr⟩
  | none => .ok ⟨f.vis, f.name, .single ip f.args rt f.body pr⟩

/-- The `argio` transformer of `src/src/lib.rs`: identical except for the
default input facility and the missing braceless-template short-circuit. -/
def argioSrcGen (P : List Char → Except String SExpr) (attr : ArgioAttr) (f : FnItem) :
    Except Diag GenOut :=
  let rt := retTyOf f.retAnn
  let pr := printResOf attr rt
  let ip := srcInputPathOf attr
  match attr.multicase with
  | some (tpl, tsp) =>
    match mkHeaderSrc P tpl tsp with
    | .error d => .error d
    | .ok hd => .ok ⟨f.vis, f.name, .multi ip hd f.args rt f.body pr⟩
  | none => .ok ⟨f.vis, f.name, .single ip f.args rt f.body pr⟩

/-- The declaration list `cases: usize` read before the multicase loop. -/
def casesDecl : Decls := "cases: usize"

/-- One observable step of the generated program: an invocation of the
input facility on a declaration list, or text written to standard output. -/
inductive Event where
  | read (p : RPath) (d : Decls)
  | out (s : List Char)
deriving DecidableEq, Repr

/-- Semantics of the external collaborators of the generated code, over an
input-stream state `σ` and a value domain `V`: the input facility (which
binds a declaration list from the stream, returning the bound values and
the advanced stream), the conversion of the `cases` value to a count, the
original body as a function of its inputs, the `Display` rendering, the
configured output wrapper, and the header formatting (evaluation of the
substituted template expression at the current case index, and `print!`
formatting). -/
structure RunEnv (σ V : Type) where
  read : RPath → Decls → σ → V × σ
  asCount : V → Nat
  evalBody : Body → V → V
  display : V → List Char
  wrap : RPath → V → V
  evalArg : SExpr → Nat → V
  render : List Char → V → List Char

/-- Apply the result-print wrapping. -/
def wrapVal (env : RunEnv σ V) : PrintRes → V → V
  | .raw, v => v
  | .wrapped w, v => env.wrap w v

/-- The text printed by the per-case header at case index `i`. -/
def headerStr (env : RunEnv σ V) : Header → Nat → List Char
  | .literal s, _ => s
  | .fmt f a, i => env.render f (env.evalArg a i)

/-- The events of one evaluation of the generated closure plus the result
print: invoke the input facility on the original parameter list, evaluate
the body on the bound values, then (unless the result print was elided)
print the Display text of the possibly-wrapped result followed by a
newline. -/
def runCase (env : RunEnv σ V) (m : RPath) (args : Decls) (body : Body)
    (pr : Option PrintRes) (s : σ) : List Event × σ :=
  let vs := env.read m args s
  let r := env.evalBody body vs.1
  match pr with
  | none => ([Event.read m args], vs.2)
  | some w => ([Event.read m args, Event.out (env.display (wrapVal env w r) ++ ['\n'])], vs.2)

/-- The multicase loop `for case_id in 0..cases`: remaining iteration count,
current case index, current stream state. -/
def runCases (env : RunEnv σ V) (m : RPath) (hd : Header) (args : Decls) (body : Body)
    (pr : Option PrintRes) : Nat → Nat → σ → List Event × σ
  | 0, _, s => ([], s)
  | Nat.succ k, i, s =>
    let c := runCase env m args body pr s
    let rest := runCases env m hd args body pr k (i + 1) c.2
    (Event.out (headerStr env hd i) :: c.1 ++ rest.1, rest.2)

/-- The stream state after the first `n` cases. -/
def caseState (env : RunEnv σ V) (m : RPath) (args : Decls) (body : Body)
    (pr : Option PrintRes) : Nat → σ → σ
  | 0, s => s
  | Nat.succ k, s => caseState env m args body pr k (runCase env m args body pr s).2

/-- The runtime event trace of the generated function: the single-shot
shape is one closure evaluation; the multicase shape first reads `cases`,
then runs the loop from index 0. -/
def runGen (env : RunEnv σ V) (g : GenOut) (s : σ) : List Event × σ :=
  match g.mode with
  | .single m args _rt body pr => runCase env m args body pr s
  | .multi m hd args _rt body pr =>
    let cv := env.read m casesDecl s
    let n := env.asCount cv.1
    let rest := runCases env m hd args body pr n 0 cv.2
    (Event.read m casesDecl :: rest.1, rest.2)

/-- Decidable equality for `Except`, used to evaluate the embedded
transformers on concrete inputs. -/
instance [DecidableEq ε] [DecidableEq α] : DecidableEq (Except ε α) := fun x y =>
  match x, y with
  | .error a, .error b =>
    match decEq a b with
    | isTrue h => isTrue (congrArg Except.error h)
    | isFalse h => isFalse (fun c => h (by cases c; rfl))
  | .ok a, .ok b =>
    match decEq a b with
    | isTrue h => isTrue (congrArg Except.ok h)
    | isFalse h => isFalse (fun c => h (by cases c; rfl))
  | .error _, .ok _ => isFalse (fun c => Except.noConfusion c)
  | .ok _, .error _ => isFalse (fun c => Except.noConfusion c)

/-- A concrete stand-in for the external expression parser, used when
evaluating the transformers on inputs whose template has no placeholder. -/
def pZero : List Char → Except String SExpr := fun _ => Except.error ""

/-- A concrete expression parser that wraps the text in a literal node,
used for concrete multicase evaluations. -/
def pLit : List Char → Except String SExpr := fun cs => Except.ok (SExpr.lit (String.mk cs))

/-- A concrete attribute with no options. -/
def wAttrSingle : ArgioAttr := ⟨none, none, none⟩

/-- A concrete attribute selecting multicase with the braceless template
`abc` recorded at span 9. -/
def wAttrMulti : ArgioAttr := ⟨some ("abc".data, 9), none, none⟩

/-- A concrete non-unit-returning function item. -/
def wFn : FnItem := ⟨"pub", "main", "n: i32", some (Ty.name "i32"), "n * 2"⟩

/-- A concrete function item with no return annotation. -/
def wFnUnit : FnItem := ⟨"", "solve", "n: usize", none, "go"⟩

/-- The replacement function the transformer produces for `wAttrSingle` and
`wFn`. -/
def wGenSingle : GenOut :=
  ⟨"pub", "main", .single argioDefaultInput "n: i32" (Ty.name "i32") "n * 2" (some .raw)⟩

/-- The replacement function the transformer produces for `wAttrMulti` and
`wFn`. -/
def wGenMulti : GenOut :=
  ⟨"pub", "main",
    .multi argioDefaultInput (.literal "abc".data) "n: i32" (Ty.name "i32") "n * 2" (some .raw)⟩

/-- A concrete collaborator environment over stream state `Nat` and value
domain `Nat`: reading returns the current state and advances it, the body
adds one, display renders the decimal digits, rendering appends the value's
display to the format string. -/
def wEnv : RunEnv Nat Nat :=
  { read := fun _ _ s => (s, s + 1)
    asCount := fun v => v
    evalBody := fun _ v => v + 1
    display := fun v => Nat.toDigits 10 v
    wrap := fun _ v => v + 100
    evalArg := fun _ i => i
    render := fun f v => f ++ Nat.toDigits 10 v }

/-- A concrete attribute whose multicase template `x{i}` contains a brace,
recorded at span 4. -/
def wAttrTplBrace : ArgioAttr := ⟨some ("x{i}".data, 4), none, none⟩

/-- A concrete attribute with an explicitly configured input facility. -/
def wAttrInput : ArgioAttr := ⟨none, some ["proconio", "input"], none⟩

/-- The replacement function the transformer produces for `wAttrSingle` and
`wFnUnit`: the result print is elided. -/
def wGenUnit : GenOut :=
  ⟨"", "solve", .single argioDefaultInput "n: usize" Ty.unit "go" none⟩

theorem takeWhile_append_of_all (q : Char → Bool) (l : List Char) (c0 : Char) (r : List Char)
    (hl : ∀ c ∈ l, q c = true) (hc : q c0 = false) :
    (l ++ c0 :: r).takeWhile q = l := by
  induction l with
  | nil => simp [List.takeWhile_cons, hc]
  | cons a as ih =>
    have ha : q a = true := hl a (by simp)
    simp [List.takeWhile_cons, ha, ih (fun c hmem => hl c (by simp [hmem]))]

theorem dropWhile_append_of_all (q : Char → Bool) (l : List Char) (c0 : Char) (r : List Char)
    (hl : ∀ c ∈ l, q c = true) (hc : q c0 = false) :
    (l ++ c0 :: r).dropWhile q = c0 :: r := by
  induction l with
  | nil => simp [List.dropWhile_cons, hc]
  | cons a as ih =>
    have ha : q a = true := hl a (by simp)
    simp [List.dropWhile_cons, ha, ih (fun c hmem => hl c (by simp [hmem]))]

theorem mem_takeWhile_q (q : Char → Bool) (l : List Char) (a : Char)
    (h : a ∈ l.takeWhile q) : q a = true := by
  induction l with
  | nil => simp [List.takeWhile] at h
  | cons b bs ih =>
    by_cases hb : q b
    · rw [List.takeWhile_cons, if_pos hb] at h
      rcases List.mem_cons.mp h with h1 | h2
      · rwa [h1]
      · exact ih h2
    · rw [List.takeWhile_cons, if_neg hb] at h
      simp at h

theorem splitAtBrace_append (p r : List Char) (hp : '{' ∉ p) :
    splitAtBrace (p ++ '{' :: r) = some (p, r) := by
  induction p with
  | nil => simp [splitAtBrace]
  | cons c cs ih =>
    have hc : ¬ c = '{' := fun h => hp (by simp [h])
    simp only [List.cons_append, splitAtBrace, if_neg hc, List.append_eq,
      ih (fun h => hp (List.mem_cons_of_mem _ h)), Option.map_some']

theorem splitAtBrace_sound : ∀ (s p r : List Char), splitAtBrace s = some (p, r) →
    s = p ++ '{' :: r ∧ '{' ∉ p := by
  intro s
  induction s with
  | nil => intro p r h; simp [splitAtBrace] at h
  | cons c cs ih =>
    intro p r h
    by_cases hc : c = '{'
    · rw [splitAtBrace, if_pos hc] at h
      obtain ⟨hp, hr⟩ := Prod.mk.injEq .. ▸ (Option.some.inj h)
      subst hc; subst hp; subst hr; simp
    · rw [splitAtBrace, if_neg hc] at h
      rw [Option.map_eq_some'] at h
      obtain ⟨⟨p1, r1⟩, hsp, heq⟩ := h
      obtain ⟨hp, hr⟩ := Prod.mk.injEq .. ▸ heq
      obtain ⟨hs, hmem⟩ := ih p1 r1 hsp
      subst hp; subst hr; subst hs
      constructor
      · simp
      · intro hmem2
        rcases List.mem_cons.mp hmem2 with h1 | h2
        · exact hc h1.symm
        · exact hmem h2

theorem decompose_of_shape (p e t : List Char) (osp : Option (List Char))
    (hp : '{' ∉ p) (he : e ≠ []) (hec : ∀ c ∈ e, c ≠ ':' ∧ c ≠ '}')
    (hsp : ∀ sp, osp = some sp → sp ≠ [] ∧ ∀ c ∈ sp, c ≠ '}')
    (ht : '\n' ∉ t) :
    decompose (p ++ '{' :: (e ++ specChunk osp ++ '}' :: t)) = some (p, e, osp, t) := by
  have hee : ∀ c ∈ e, exprChar c = true := by
    intro c hc
    obtain ⟨h1, h2⟩ := hec c hc
    simp [exprChar, h1, h2]
  have htc : t.contains '\n' = false := by
    simp [List.contains, ht]
  rw [decompose, splitAtBrace_append _ _ hp]
  cases osp with
  | none =>
    simp only [specChunk, List.append_nil]
    rw [takeWhile_append_of_all exprChar e '}' t hee (by simp [exprChar]),
      dropWhile_append_of_all exprChar e '}' t hee (by simp [exprChar])]
    simp [List.isEmpty_iff, he, htc, ht]
  | some sp =>
    obtain ⟨hsp1, hsp2⟩ := hsp sp rfl
    have hspq : ∀ c ∈ sp, specChar c = true := by
      intro c hc
      simp [specChar, hsp2 c hc]
    simp only [specChunk]
    have harr : e ++ (':' :: sp) ++ '}' :: t = e ++ ':' :: (sp ++ '}' :: t) := by simp
    rw [harr,
      takeWhile_append_of_all exprChar e ':' (sp ++ '}' :: t) hee (by simp [exprChar]),
      dropWhile_append_of_all exprChar e ':' (sp ++ '}' :: t) hee (by simp [exprChar])]
    simp only [List.isEmpty_iff, he, if_neg]
    rw [if_neg (by simp [List.isEmpty_iff, he])]
    rw [takeWhile_append_of_all specChar sp '}' t hspq (by simp [specChar]),
      dropWhile_append_of_all specChar sp '}' t hspq (by simp [specChar])]
    simp [List.isEmpty_iff, hsp1, htc, ht]

theorem decompose_sound (s p e : List Char) (osp : Option (List Char)) (t : List Char)
    (h : decompose s = some (p, e, osp, t)) :
    s = p ++ '{' :: (e ++ specChunk osp ++ '}' :: t) ∧ '{' ∉ p ∧ e ≠ [] ∧
    (∀ c ∈ e, c ≠ ':' ∧ c ≠ '}') ∧
    (∀ sp, osp = some sp → sp ≠ [] ∧ ∀ c ∈ sp, c ≠ '}') ∧ '\n' ∉ t := by
  rw [decompose] at h
  split at h
  · exact absurd h (by simp)
  · rename_i p0 r hsb
    obtain ⟨hs, hp0⟩ := splitAtBrace_sound s p0 r hsb
    have hrsplit : List.takeWhile exprChar r ++ List.dropWhile exprChar r = r :=
      List.takeWhile_append_dropWhile exprChar r
    have hemem : ∀ c ∈ List.takeWhile exprChar r, c ≠ ':' ∧ c ≠ '}' := by
      intro c hc
      have := mem_takeWhile_q exprChar r c hc
      simp [exprChar] at this
      exact this
    simp only at h
    split at h
    · exact absurd h (by simp)
    · rename_i hne
      have hene : List.takeWhile exprChar r ≠ [] := by
        simpa [List.isEmpty_iff] using hne
      split at h
      · rename_i r2 heq1
        have hspmem : ∀ c ∈ List.takeWhile specChar r2, c ≠ '}' := by
          intro c hc
          have := mem_takeWhile_q specChar r2 c hc
          simpa [specChar] using this
        have hr2split : List.takeWhile specChar r2 ++ List.dropWhile specChar r2 = r2 :=
          List.takeWhile_append_dropWhile specChar r2
        split at h
        · exact absurd h (by simp)
        · rename_i hspne
          have hspne2 : List.takeWhile specChar r2 ≠ [] := by
            simpa [List.isEmpty_iff] using hspne
          split at h
          · rename_i t0 heq2
            split at h
            · exact absurd h (by simp)
            · rename_i hnl
              simp only [Option.some.injEq, Prod.mk.injEq] at h
              obtain ⟨hpp, hee, hoo, htt⟩ := h
              subst hpp; subst hee; subst htt
              subst hoo
              have hr2 : r2 = List.takeWhile specChar r2 ++ '}' :: t0 := by
                conv_lhs => rw [← hr2split]
                rw [heq2]
              have hr : r = List.takeWhile exprChar r ++ ':' :: (List.takeWhile specChar r2 ++ '}' :: t0) := by
                conv_lhs => rw [← hrsplit]
                rw [heq1]
                conv_lhs => rw [hr2]
              refine ⟨?_, hp0, hene, hemem, ?_, ?_⟩
              · rw [hs]
                have hfin : r = List.takeWhile exprChar r ++
                    specChunk (some (List.takeWhile specChar r2)) ++ '}' :: t0 := by
                  conv_lhs => rw [hr]
                  simp [specChunk]
                exact congrArg (fun l => p0 ++ '{' :: l) hfin
              · intro sp hsp
                cases hsp
                exact ⟨hspne2, hspmem⟩
              · intro hmem
                exact hnl (by simp [List.contains, hmem])
          · exact absurd h (by simp)
      · rename_i t0 heq2
        split at h
        · exact absurd h (by simp)
        · rename_i hnl
          simp only [Option.some.injEq, Prod.mk.injEq] at h
          obtain ⟨hpp, hee, hoo, htt⟩ := h
          subst hpp; subst hee; subst htt
          subst hoo
          have hr : r = List.takeWhile exprChar r ++ '}' :: t0 := by
            conv_lhs => rw [← hrsplit]
            rw [heq2]
          refine ⟨?_, hp0, hene, hemem, ?_, ?_⟩
          · rw [hs]
            have hfin : r = List.takeWhile exprChar r ++ specChunk none ++ '}' :: t0 := by
              conv_lhs => rw [hr]
              simp [specChunk]
            exact congrArg (fun l => p0 ++ '{' :: l) hfin
          · intro sp hsp
            cases hsp
          · intro hmem
            exact hnl (by simp [List.contains, hmem])
      · rename_i hother
        exact absurd h (by simp)

theorem flatMap_map_succ {β : Type} (l : List Nat) (f : Nat → List β) :
    (l.map Nat.succ).flatMap f = l.flatMap (fun j => f (j + 1)) := by
  induction l with
  | nil => rfl
  | cons a as ih => simp [List.flatMap_cons, ih]

theorem runCases_eq {σ V : Type} (env : RunEnv σ V) (m : RPath) (hd : Header) (args : Decls)
    (body : Body) (pr : Option PrintRes) :
    ∀ (n i : Nat) (s : σ),
    runCases env m hd args body pr n i s =
      ((List.range n).flatMap (fun j =>
          Event.out (headerStr env hd (i + j)) ::
            (runCase env m args body pr (caseState env m args body pr j s)).1),
       caseState env m args body pr n s) := by
  intro n
  induction n with
  | zero => intro i s; simp [runCases, caseState]
  | succ k ih =>
    intro i s
    simp only [runCases, ih, List.range_succ_eq_map, List.flatMap_cons, flatMap_map_succ]
    simp [caseState, Nat.add_comm, Nat.add_assoc, Nat.add_left_comm]

/-- C3 (counterexample): the claim says the substitution pass leaves the
field name of a member access unchanged, but `VarRewriter` renames the field
`i` of `x.i` to `case_id`, because syn's default traversal visits the member
identifier. -/
theorem C3_counterexample :
    substIdent "case_id" (SExpr.fieldNamed (SExpr.path ["x"]) "i") =
      SExpr.fieldNamed (SExpr.path ["x"]) "case_id" ∧
    ("case_id" : String) ≠ "i" := by
  constructor
  · rfl
  · decide

/-- C3 (amended): the substitution pass renames every identifier node equal
to `i` — including those nested in sub-expressions, calls and operators, and
also field names, method names and path segments — to the case-index name,
and leaves every other identifier (such as `item`, which merely contains `i`)
unchanged: the identifier multiset of the result is the pointwise rename of
the original's. -/
theorem C3_subst_renames_exact (cid : String) (e : SExpr) :
    identsOf (substIdent cid e) = (identsOf e).map (renameIdent cid) := by
  induction e with
  | path segs => simp [identsOf, substIdent]
  | lit t => simp [identsOf, substIdent]
  | paren e ih => simp [identsOf, substIdent, ih]
  | unary op e ih => simp [identsOf, substIdent, ih]
  | binary op l r ihl ihr => simp [identsOf, substIdent, ihl, ihr]
  | call f a ihf iha => simp [identsOf, substIdent, ihf, iha]
  | methodCall r m a ihr iha => simp [identsOf, substIdent, ihr, iha]
  | fieldNamed b nm ih => simp [identsOf, substIdent, ih]
  | fieldUnnamed b idx ih => simp [identsOf, substIdent, ih]

/-- C7: round-trip of the template decomposer and reassembler: a template
`prefix{expr}suffix` (no spec) decomposes to its parts and reassembles to
exactly `prefix{}suffix`; a template `prefix{expr:spec}suffix` decomposes to
its parts and reassembles to exactly `prefix{:spec}suffix`, the expression
text being extracted and supplied separately. -/
theorem C7_roundtrip (p e sp t : List Char)
    (hp : '{' ∉ p) (he : e ≠ []) (hec : ∀ c ∈ e, c ≠ ':' ∧ c ≠ '}')
    (hsp1 : sp ≠ []) (hsp2 : ∀ c ∈ sp, c ≠ '}') (ht : '\n' ∉ t) :
    decompose (p ++ '{' :: (e ++ '}' :: t)) = some (p, e, none, t) ∧
    reassembleFmt p none t = p ++ '{' :: '}' :: t ∧
    decompose (p ++ '{' :: (e ++ ':' :: sp ++ '}' :: t)) = some (p, e, some sp, t) ∧
    reassembleFmt p (some sp) t = p ++ '{' :: ':' :: sp ++ '}' :: t := by
  refine ⟨?_, by simp [reassembleFmt, specChunk], ?_, by simp [reassembleFmt, specChunk]⟩
  · have h := decompose_of_shape p e t none hp he hec (by intro sp2 hc; cases hc) ht
    simpa [specChunk] using h
  · have h := decompose_of_shape p e t (some sp) hp he hec
      (by intro sp2 hc; cases hc; exact ⟨hsp1, hsp2⟩) ht
    simpa [specChunk] using h

/-- C7 (witness): the round-trip evaluated on the concrete template parts
`Case #`, `i+1`, `02`, `: `. -/
theorem C7_witness :
    decompose ("Case #".data ++ '{' :: ("i+1".data ++ '}' :: ": ".data)) =
      some ("Case #".data, "i+1".data, none, ": ".data) ∧
    reassembleFmt "Case #".data none ": ".data = "Case #".data ++ '{' :: '}' :: ": ".data ∧
    decompose ("Case #".data ++ '{' :: ("i+1".data ++ ':' :: "02".data ++ '}' :: ": ".data)) =
      some ("Case #".data, "i+1".data, some "02".data, ": ".data) ∧
    reassembleFmt "Case #".data (some "02".data) ": ".data =
      "Case #".data ++ '{' :: ':' :: "02".data ++ '}' :: ": ".data :=
  C7_roundtrip "Case #".data "i+1".data "02".data ": ".data
    (by decide) (by decide) (by decide) (by decide) (by decide) (by decide)

/-- C6: every template string containing a brace that is submitted to the
decomposer either matches the regex shape (and decomposition succeeds), or
the whole transformation fails with exactly `Invalid multicase format`
attributed to the template literal's span, emitting no replacement
function. -/
theorem C6_regex_or_error (P : List Char → Except String SExpr) (f : FnItem)
    (attr : ArgioAttr) (tpl : List Char) (tsp : Nat)
    (hm : attr.multicase = some (tpl, tsp)) (hb : tpl.contains '{' = true) :
    (regexMatches tpl ∧ (decompose tpl).isSome) ∨
    (decompose tpl = none ∧ argioGen P attr f = .error ⟨tsp, "Invalid multicase format"⟩) := by
  cases hdec : decompose tpl with
  | some caps =>
    left
    obtain ⟨p, e, osp, t⟩ := caps
    exact ⟨⟨p, e, osp, t, decompose_sound tpl p e osp t hdec⟩, by simp [hdec]⟩
  | none =>
    right
    refine ⟨rfl, ?_⟩
    have hmem : '{' ∈ tpl := by simpa [List.contains] using hb
    simp [argioGen, hm, mkHeaderArgio, mkHeaderSrc, hmem, hdec]

/-- C6 (witness): evaluated on the concrete template `x{i}` at span 4. -/
theorem C6_witness :
    (regexMatches "x{i}".data ∧ (decompose "x{i}".data).isSome) ∨
    (decompose "x{i}".data = none ∧
      argioGen pZero wAttrTplBrace wFn = .error ⟨4, "Invalid multicase format"⟩) :=
  C6_regex_or_error pZero wFn wAttrTplBrace "x{i}".data 4 rfl (by decide)

/-- C5: a multicase template without any brace character is accepted, and
the generated per-case header print emits the template text literally with
no substitution argument. -/
theorem C5_braceless_literal (P : List Char → Except String SExpr)
    (attr : ArgioAttr) (f : FnItem) (tpl : List Char) (tsp : Nat)
    (σ V : Type) (env : RunEnv σ V) (i : Nat)
    (hm : attr.multicase = some (tpl, tsp))
    (hb : tpl.contains '{' = false) :
    argioGen P attr f = .ok ⟨f.vis, f.name, .multi (inputPathOf attr) (Header.literal tpl)
      f.args (retTyOf f.retAnn) f.body (printResOf attr (retTyOf f.retAnn))⟩ ∧
    headerStr env (Header.literal tpl) i = tpl := by
  constructor
  · have hmem : '{' ∉ tpl := by simpa [List.contains] using hb
    simp [argioGen, mkHeaderArgio, hm, hmem, inputPathOf, retTyOf, printResOf]
  · rfl

/-- C5 (witness): evaluated on the braceless template `abc` at span 9 with
the sample function and the concrete environment. -/
theorem C5_witness :
    argioGen pZero wAttrMulti wFn = .ok ⟨wFn.vis, wFn.name,
      .multi (inputPathOf wAttrMulti) (Header.literal "abc".data) wFn.args
        (retTyOf wFn.retAnn) wFn.body (printResOf wAttrMulti (retTyOf wFn.retAnn))⟩ ∧
    headerStr wEnv (Header.literal "abc".data) 0 = "abc".data :=
  C5_braceless_literal pZero wAttrMulti wFn "abc".data 9 Nat Nat wEnv 0 rfl (by decide)

/-- C1: in single-shot mode with a non-unit return type, the generated
zero-parameter function invokes the input facility exactly once on the
original parameter list, evaluates the original body as a closure typed with
the original return type, and prints exactly one line — the Display text of
the result (wrapped by a one-argument call to the configured constructor
when `output` is configured, raw otherwise) followed by a newline — and
nothing else. -/
theorem C1_single_shot_trace (P : List Char → Except String SExpr)
    (attr : ArgioAttr) (f : FnItem) (g : GenOut) (σ V : Type)
    (env : RunEnv σ V) (s : σ)
    (hg : argioGen P attr f = .ok g)
    (hmc : attr.multicase = none)
    (hrt : retTyOf f.retAnn ≠ Ty.unit) :
    g = ⟨f.vis, f.name, .single (inputPathOf attr) f.args (retTyOf f.retAnn) f.body
      (some (outWrapOf attr))⟩ ∧
    runGen env g s =
      ([Event.read (inputPathOf attr) f.args,
        Event.out (env.display (wrapVal env (outWrapOf attr)
          (env.evalBody f.body (env.read (inputPathOf attr) f.args s).1)) ++ ['\n'])],
       (env.read (inputPathOf attr) f.args s).2) := by
  have hgeq : g = ⟨f.vis, f.name, .single (inputPathOf attr) f.args (retTyOf f.retAnn) f.body
      (some (outWrapOf attr))⟩ := by
    simp [argioGen, hmc, printResOf, if_neg hrt] at hg
    exact hg.symm
  refine ⟨hgeq, ?_⟩
  subst hgeq
  simp [runGen, runCase]

/-- C1 (witness): evaluated with no options on the sample function, over the
concrete environment at stream state 5: one read of `n: i32`, one output
line `6\n`, final state 6. -/
theorem C1_witness :
    wGenSingle = ⟨wFn.vis, wFn.name, .single (inputPathOf wAttrSingle) wFn.args
      (retTyOf wFn.retAnn) wFn.body (some (outWrapOf wAttrSingle))⟩ ∧
    runGen wEnv wGenSingle 5 =
      ([Event.read (inputPathOf wAttrSingle) wFn.args,
        Event.out (wEnv.display (wrapVal wEnv (outWrapOf wAttrSingle)
          (wEnv.evalBody wFn.body (wEnv.read (inputPathOf wAttrSingle) wFn.args 5).1)) ++ ['\n'])],
       (wEnv.read (inputPathOf wAttrSingle) wFn.args 5).2) :=
  C1_single_shot_trace pZero wAttrSingle wFn wGenSingle Nat Nat wEnv 5 rfl rfl (by decide)

/-- C2: in multicase mode the generated function first reads the unsigned
count `cases` via the input facility, then performs exactly `cases`
iterations indexed from 0, each printing the header for its index, then
reading the original parameters fresh and evaluating the body, then
conditionally printing the result; with zero cases there are no per-case
reads and no output lines at all. -/
theorem C2_multicase_trace (P : List Char → Except String SExpr)
    (attr : ArgioAttr) (f : FnItem) (g : GenOut) (tpl : List Char) (tsp : Nat)
    (hd : Header) (σ V : Type) (env : RunEnv σ V) (s : σ)
    (hg : argioGen P attr f = .ok g)
    (hm : attr.multicase = some (tpl, tsp))
    (hhd : mkHeaderArgio P tpl tsp = .ok hd) :
    g = ⟨f.vis, f.name, .multi (inputPathOf attr) hd f.args (retTyOf f.retAnn) f.body
      (printResOf attr (retTyOf f.retAnn))⟩ ∧
    runGen env g s =
      (Event.read (inputPathOf attr) casesDecl ::
        (List.range (env.asCount (env.read (inputPathOf attr) casesDecl s).1)).flatMap
          (fun j =>
            Event.out (headerStr env hd j) ::
              (runCase env (inputPathOf attr) f.args f.body (printResOf attr (retTyOf f.retAnn))
                (caseState env (inputPathOf attr) f.args f.body
                  (printResOf attr (retTyOf f.retAnn)) j
                  (env.read (inputPathOf attr) casesDecl s).2)).1),
       caseState env (inputPathOf attr) f.args f.body (printResOf attr (retTyOf f.retAnn))
         (env.asCount (env.read (inputPathOf attr) casesDecl s).1)
         (env.read (inputPathOf attr) casesDecl s).2) ∧
    (env.asCount (env.read (inputPathOf attr) casesDecl s).1 = 0 →
      runGen env g s = ([Event.read (inputPathOf attr) casesDecl],
        (env.read (inputPathOf attr) casesDecl s).2)) := by
  have hgeq : g = ⟨f.vis, f.name, .multi (inputPathOf attr) hd f.args (retTyOf f.retAnn) f.body
      (printResOf attr (retTyOf f.retAnn))⟩ := by
    simp [argioGen, hm, hhd] at hg
    exact hg.symm
  subst hgeq
  have htr :
      runGen env (⟨f.vis, f.name, .multi (inputPathOf attr) hd f.args (retTyOf f.retAnn) f.body
        (printResOf attr (retTyOf f.retAnn))⟩ : GenOut) s =
      (Event.read (inputPathOf attr) casesDecl ::
        (List.range (env.asCount (env.read (inputPathOf attr) casesDecl s).1)).flatMap
          (fun j =>
            Event.out (headerStr env hd j) ::
              (runCase env (inputPathOf attr) f.args f.body (printResOf attr (retTyOf f.retAnn))
                (caseState env (inputPathOf attr) f.args f.body
                  (printResOf attr (retTyOf f.retAnn)) j
                  (env.read (inputPathOf attr) casesDecl s).2)).1),
       caseState env (inputPathOf attr) f.args f.body (printResOf attr (retTyOf f.retAnn))
         (env.asCount (env.read (inputPathOf attr) casesDecl s).1)
         (env.read (inputPathOf attr) casesDecl s).2) := by
    simp only [runGen]
    rw [runCases_eq]
    simp [Nat.zero_add]
  refine ⟨rfl, htr, ?_⟩
  intro h0
  rw [htr, h0]
  simp [caseState]

/-- C2 (witness): evaluated on the braceless multicase template `abc` with
the sample function over the concrete environment at stream state 2, where
the `cases` read yields 2. -/
theorem C2_witness :
    wGenMulti = ⟨wFn.vis, wFn.name, .multi (inputPathOf wAttrMulti) (Header.literal "abc".data)
      wFn.args (retTyOf wFn.retAnn) wFn.body (printResOf wAttrMulti (retTyOf wFn.retAnn))⟩ ∧
    runGen wEnv wGenMulti 2 =
      (Event.read (inputPathOf wAttrMulti) casesDecl ::
        (List.range (wEnv.asCount (wEnv.read (inputPathOf wAttrMulti) casesDecl 2).1)).flatMap
          (fun j =>
            Event.out (headerStr wEnv (Header.literal "abc".data) j) ::
              (runCase wEnv (inputPathOf wAttrMulti) wFn.args wFn.body
                (printResOf wAttrMulti (retTyOf wFn.retAnn))
                (caseState wEnv (inputPathOf wAttrMulti) wFn.args wFn.body
                  (printResOf wAttrMulti (retTyOf wFn.retAnn)) j
                  (wEnv.read (inputPathOf wAttrMulti) casesDecl 2).2)).1),
       caseState wEnv (inputPathOf wAttrMulti) wFn.args wFn.body
         (printResOf wAttrMulti (retTyOf wFn.retAnn))
         (wEnv.asCount (wEnv.read (inputPathOf wAttrMulti) casesDecl 2).1)
         (wEnv.read (inputPathOf wAttrMulti) casesDecl 2).2) ∧
    (wEnv.asCount (wEnv.read (inputPathOf wAttrMulti) casesDecl 2).1 = 0 →
      runGen wEnv wGenMulti 2 = ([Event.read (inputPathOf wAttrMulti) casesDecl],
        (wEnv.read (inputPathOf wAttrMulti) casesDecl 2).2)) :=
  C2_multicase_trace pZero wAttrMulti wFn wGenMulti "abc".data 9 (Header.literal "abc".data)
    Nat Nat wEnv 2 rfl rfl rfl

/-- C8: when the declared return type is syntactically the unit type (or the
annotation is absent), the generated function's result print is elided in
both modes — it never invokes the display facility for the result — and a
case evaluation emits only the input read, no output line.  The comparison
is the syntactic equality test performed at transformation time. -/
theorem C8_unit_no_display (P : List Char → Except String SExpr)
    (attr : ArgioAttr) (f : FnItem) (g : GenOut) (σ V : Type)
    (env : RunEnv σ V) (s : σ)
    (hg : argioGen P attr f = .ok g)
    (hrt : retTyOf f.retAnn = Ty.unit) :
    g.mode.printRes = none ∧
    runCase env (inputPathOf attr) f.args f.body g.mode.printRes s =
      ([Event.read (inputPathOf attr) f.args], (env.read (inputPathOf attr) f.args s).2) := by
  have hpr : printResOf attr (retTyOf f.retAnn) = none := by simp [printResOf, hrt]
  have h1 : g.mode.printRes = none := by
    cases hmc : attr.multicase with
    | none =>
      simp [argioGen, hmc] at hg
      rw [← hg]
      simp [GenMode.printRes, hpr]
    | some pr =>
      obtain ⟨tpl, tsp⟩ := pr
      simp only [argioGen, hmc] at hg
      cases hh : mkHeaderArgio P tpl tsp with
      | error d => rw [hh] at hg; simp at hg
      | ok hd =>
        rw [hh] at hg
        simp only [Except.ok.injEq] at hg
        rw [← hg]
        simp [GenMode.printRes, hpr]
  refine ⟨h1, ?_⟩
  rw [h1]
  simp [runCase]

/-- C8 (witness): evaluated on the annotation-free sample function with no
options, over the concrete environment at stream state 5. -/
theorem C8_witness :
    wGenUnit.mode.printRes = none ∧
    runCase wEnv (inputPathOf wAttrSingle) wFnUnit.args wFnUnit.body wGenUnit.mode.printRes 5 =
      ([Event.read (inputPathOf wAttrSingle) wFnUnit.args],
       (wEnv.read (inputPathOf wAttrSingle) wFnUnit.args 5).2) :=
  C8_unit_no_display pZero wAttrSingle wFnUnit wGenUnit Nat Nat wEnv 5 rfl rfl

/-- C4 (counterexample): the claim says a recognized option appearing twice
never yields a successful `AttributeArguments` value, but the parser accepts
`multicase, multicase` — there is no duplicate check, the later entry simply
overwrites the earlier one. -/
theorem C4_counterexample :
    parseArgioAttr [Tok.ident "multicase" 1, Tok.comma 2, Tok.ident "multicase" 3] =
      .ok ⟨some (defaultTemplate, 0), none, none⟩ := by
  decide

/-- C4 (amended): each recognized option may appear any number of times; a
repeated option parses successfully and the last occurrence wins, for all
three recognized options. -/
theorem C4_duplicates_last_wins (s1 s2 : List Char) (p1 p2 : String)
    (a1 a2 a3 a4 a5 a6 a7 : Nat) :
    parseArgioAttr [Tok.ident "multicase" a1, Tok.eqTok a2, Tok.litS s1 a3, Tok.comma a4,
      Tok.ident "multicase" a5, Tok.eqTok a6, Tok.litS s2 a7] = .ok ⟨some (s2, a7), none, none⟩ ∧
    parseArgioAttr [Tok.ident "input" a1, Tok.eqTok a2, Tok.ident p1 a3, Tok.comma a4,
      Tok.ident "input" a5, Tok.eqTok a6, Tok.ident p2 a7] = .ok ⟨none, some [p2], none⟩ ∧
    parseArgioAttr [Tok.ident "output" a1, Tok.eqTok a2, Tok.ident p1 a3, Tok.comma a4,
      Tok.ident "output" a5, Tok.eqTok a6, Tok.ident p2 a7] = .ok ⟨none, none, some [p2]⟩ :=
  ⟨rfl, rfl, rfl⟩

/-- Unrecognized leading entry names make the parse loop fail immediately
with the fixed `argio: invalid attr:` message at the identifier's span. -/
theorem parseAttrStep_invalid (fuel : Nat) (ret : ArgioAttr) (nm : String) (sp : Nat)
    (rest : List Tok) (h1 : nm ≠ "multicase") (h2 : nm ≠ "output") (h3 : nm ≠ "input") :
    parseAttrStep (fuel + 1) true ret (Tok.ident nm sp :: rest) =
      .error ⟨sp, "argio: invalid attr: " ++ nm⟩ := by
  simp [parseAttrStep, h1, h2, h3]

/-- C9 (counterexample): the claim says every malformed argument list after
a recognized entry fails with exactly `argio: invalid attr: <name>`, but a
recognized option missing its `= value` (here a bare `input`) fails with the
error of the `Token![=]` parse, whose message is not of that form. -/
theorem C9_counterexample :
    parseArgioAttr [Tok.ident "input" 7] = .error ⟨0, "expected `=`"⟩ ∧
    ("expected `=`" : String) ≠ "argio: invalid attr: input" := by
  constructor
  · rfl
  · decide

/-- C9 (amended): an argument list whose leading entry name is unrecognized
fails with exactly `argio: invalid attr: <name>` at that identifier's span;
in particular `foo = bar` fails with `argio: invalid attr: foo`; and the
empty argument list succeeds with all options absent.  (Recognized entries
with missing or malformed values instead fail with the underlying syn
error.) -/
theorem C9_invalid_attr_message (nm : String) (sp : Nat) (rest : List Tok)
    (h1 : nm ≠ "multicase") (h2 : nm ≠ "output") (h3 : nm ≠ "input") :
    parseArgioAttr (Tok.ident nm sp :: rest) = .error ⟨sp, "argio: invalid attr: " ++ nm⟩ ∧
    parseArgioAttr [Tok.ident "foo" 3, Tok.eqTok 4, Tok.ident "bar" 5] =
      .error ⟨3, "argio: invalid attr: foo"⟩ ∧
    parseArgioAttr [] = .ok emptyAttr := by
  refine ⟨?_, by decide, by decide⟩
  simp only [parseArgioAttr, runAttrParse, List.length_cons]
  rw [parseAttrStep_invalid (rest.length + 1) emptyAttr nm sp rest h1 h2 h3]

/-- C9 (amended witness): the unrecognized entry `zzz` at span 11 followed
by arbitrary tokens. -/
theorem C9_witness :
    parseArgioAttr (Tok.ident "zzz" 11 :: [Tok.eqTok 12]) =
      .error ⟨11, "argio: invalid attr: " ++ "zzz"⟩ ∧
    parseArgioAttr [Tok.ident "foo" 3, Tok.eqTok 4, Tok.ident "bar" 5] =
      .error ⟨3, "argio: invalid attr: foo"⟩ ∧
    parseArgioAttr [] = .ok emptyAttr :=
  C9_invalid_attr_message "zzz" 11 [Tok.eqTok 12] (by decide) (by decide) (by decide)

/-- C10 (counterexample): the two transformers are not extensionally equal:
with no options at all, on the same function, the `argio-macro` version uses
the default input facility `argio::proconio::input` while the `src/src`
version uses `proconio::input`, so they emit different replacement
functions. -/
theorem C10_counterexample :
    argioGen pZero wAttrSingle wFn ≠ argioSrcGen pZero wAttrSingle wFn := by
  decide

/-- C10 (amended): the two transformers agree whenever the input facility is
explicitly configured and the multicase template, if present, contains a
brace; they differ exactly in the default input path and in the handling of
braceless multicase templates. -/
theorem C10_agree_when_input_explicit (P : List Char → Except String SExpr)
    (attr : ArgioAttr) (f : FnItem) (ip : RPath)
    (hin : attr.input = some ip)
    (hmc : attr.multicase = none ∨
      ∃ tpl tsp, attr.multicase = some (tpl, tsp) ∧ tpl.contains '{' = true) :
    argioGen P attr f = argioSrcGen P attr f := by
  have hip : inputPathOf attr = srcInputPathOf attr := by
    simp [inputPathOf, srcInputPathOf, hin]
  rcases hmc with h | ⟨tpl, tsp, h, hb⟩
  · simp [argioGen, argioSrcGen, h, hip]
  · have hmem : '{' ∈ tpl := by simpa [List.contains] using hb
    simp [argioGen, argioSrcGen, h, hip, mkHeaderArgio, hmem]

/-- C10 (amended witness): with an explicitly configured input facility and
no multicase, the two transformers produce the same output on the sample
function. -/
theorem C10_witness : argioGen pZero wAttrInput wFn = argioSrcGen pZero wAttrInput wFn :=
  C10_agree_when_input_explicit pZero wAttrInput wFn ["proconio", "input"] rfl (Or.inl rfl)
